import Mathlib

/-!
Verification development for the PharmaScan client core
(`src/client/src/pages/home.tsx`).

Two pieces are embedded:
* the markup-to-table transformer `convertXmlToCsv` (with a model of the
  browser `DOMParser` restricted to the element/text markup the pipeline
  produces), and
* the batch orchestrator (`handleFilesSelected`, `handleRemoveImage`,
  `handleRetry`, `processImages`) as pure state transformers, with the
  external extraction endpoint supplied as an oracle.

JavaScript string operations used by the source are embedded over
`List Char`:
* `String.prototype.trim` removes leading/trailing whitespace;
* `replace(/MISSING|UNREADABLE/g, "")` removes, in a single left-to-right
  pass, every match of the ordered alternation;
* `replace("Order ID:", "")` (string pattern) removes only the first
  occurrence, wherever it appears.
-/

namespace PharmaScan

/-- Whitespace characters removed by the JavaScript `trim` model. -/
def isJsSpace (c : Char) : Bool :=
  c = ' ' || c = '\t' || c = '\n' || c = '\r' || c = '\x0b' || c = '\x0c'

/-- Model of `String.prototype.trim` on character lists. -/
def trimL (l : List Char) : List Char :=
  ((l.dropWhile isJsSpace).reverse.dropWhile isJsSpace).reverse

/-- Characters of the sentinel token `MISSING`. -/
def mTok : List Char := "MISSING".data

/-- Characters of the sentinel token `UNREADABLE`. -/
def uTok : List Char := "UNREADABLE".data

/-- Fuel-indexed worker for the sentinel scan. The fuel only serves
termination; it is always called with at least the length of the list,
in which case the zero-fuel branch is unreachable. -/
def scrubGo : Nat → List Char → List Char
  | _, [] => []
  | 0, l => l
  | fuel + 1, c :: cs =>
    if (c :: cs).take 7 = mTok then scrubGo fuel ((c :: cs).drop 7)
    else if (c :: cs).take 10 = uTok then scrubGo fuel ((c :: cs).drop 10)
    else c :: scrubGo fuel cs

/-- Model of `replace(/MISSING|UNREADABLE/g, "")`: a single left-to-right
scan; at each position the ordered alternation is tried, a match is deleted
and the scan resumes after it. -/
def scrubL (l : List Char) : List Char := scrubGo l.length l

/-- Model of JavaScript `replace(pat, "")` with a string pattern: only the
first occurrence is removed. -/
def replFirstL (pat : List Char) : List Char → List Char
  | [] => []
  | c :: cs =>
    if (c :: cs).take pat.length = pat then (c :: cs).drop pat.length
    else c :: replFirstL pat cs

/-- Decidable occurrence test for a pattern inside a character list. -/
def occursL (pat : List Char) : List Char → Bool
  | [] => pat.isEmpty
  | c :: cs => ((c :: cs).take pat.length = pat : Bool) || occursL pat cs

/-- String-level trim, mirroring `String.prototype.trim`. -/
def trimS (s : String) : String := ⟨trimL s.data⟩

/-- String-level sentinel scrubbing. -/
def scrubS (s : String) : String := ⟨scrubL s.data⟩

/-- String-level first-occurrence removal. -/
def replFirstS (pat s : String) : String := ⟨replFirstL pat.data s.data⟩

/-! ## Document model

The browser DOM is restricted to what the extraction markup uses:
element nodes and text nodes. -/

/-- A DOM node: an element with a tag and children, or a text node. -/
inductive XNode where
  | elem (tag : String) (children : List XNode)
  | text (s : String)
deriving Repr

mutual

/-- Model of DOM `textContent`: concatenation of all text-node data in the
subtree, in document order. -/
def textContentN : XNode → List Char
  | .text s => s.data
  | .elem _ cs => textContentList cs
  termination_by structural n => n

/-- Text content of a forest of nodes, in order. -/
def textContentList : List XNode → List Char
  | [] => []
  | c :: cs => textContentN c ++ textContentList cs
  termination_by structural l => l

end

mutual

/-- Strict descendants of a node in document (pre-)order, each paired with
the tags of its ancestor elements, nearest first, ending at this node.
Ancestors above the scope element are never consulted by the selectors the
source uses on a `MedicalDocument` scope, so the enumeration may stop at
the scope node. -/
def descsOf : XNode → List (List String × XNode)
  | .text _ => []
  | .elem t cs => descsList [t] cs

/-- Descendant enumeration of a forest whose ancestor tags are `anc`. -/
def descsList (anc : List String) : List XNode → List (List String × XNode)
  | [] => []
  | c :: cs => (anc, c) :: (descsUnder anc c ++ descsList anc cs)
  termination_by structural l => l

/-- Descendants strictly below one node, given that node's ancestor tags. -/
def descsUnder (anc : List String) : XNode → List (List String × XNode)
  | .text _ => []
  | .elem t cs => descsList (t :: anc) cs
  termination_by structural n => n

end

mutual

/-- All element nodes of a subtree, self included, in document order. -/
def elemsN : XNode → List XNode
  | .text _ => []
  | .elem t cs => .elem t cs :: elemsList cs
  termination_by structural n => n

/-- All element nodes of a forest, in document order. -/
def elemsList : List XNode → List XNode
  | [] => []
  | c :: cs => elemsN c ++ elemsList cs
  termination_by structural l => l

end

/-- Tag test for element nodes. -/
def hasTag (t : String) : XNode → Bool
  | .elem tg _ => tg = t
  | .text _ => false

/-- The CSS selector shape the source uses: a chain of tag names joined by
child combinators. `subject` is the rightmost tag; `ancChain` lists the
tags to its left, nearest parent first (so `Prescription > Medicine > Name`
is `⟨["Medicine", "Prescription"], "Name"⟩`, and a bare `Notes` is
`⟨[], "Notes"⟩`). -/
structure Sel where
  ancChain : List String
  subject : String

/-- Does a descendant (with its ancestor tags) match a selector? -/
def selMatch (sel : Sel) (p : List String × XNode) : Bool :=
  hasTag sel.subject p.2 && sel.ancChain.isPrefixOf p.1

/-- Model of `Element.querySelector` for the selector shapes used: first
matching strict descendant in document order. -/
def querySelector (root : XNode) (sel : Sel) : Option XNode :=
  ((descsOf root).find? (selMatch sel)).map (·.2)

/-! ## DOMParser model

Recursive-descent parser for the element/text markup fragment language.
Per the DOM standard, `DOMParser.parseFromString` never throws: a
well-formedness error yields a document holding only a `parsererror`
element, which in particular contains no `MedicalDocument` elements.
That error document is modelled as `none`. -/

/-- Characters allowed in a tag name in the model. -/
def isNameChar (c : Char) : Bool := c.isAlpha || c.isDigit

/-- Fuel-indexed parser for a sequence of sibling nodes. Returns the nodes
parsed and the unconsumed input (which starts with a close tag or is
empty), or `none` on a well-formedness error. -/
def parseNodes : Nat → List Char → Option (List XNode × List Char)
  | 0, _ => none
  | _ + 1, [] => some ([], [])
  | _ + 1, '<' :: '/' :: rest => some ([], '<' :: '/' :: rest)
  | fuel + 1, '<' :: rest =>
    let name := rest.takeWhile isNameChar
    if name.isEmpty then none
    else
      match rest.drop name.length with
      | '>' :: body =>
        match parseNodes fuel body with
        | none => none
        | some (children, after) =>
          match after with
          | '<' :: '/' :: after2 =>
            if after2.take name.length = name then
              match after2.drop name.length with
              | '>' :: tail =>
                match parseNodes fuel tail with
                | none => none
                | some (sibs, rest2) =>
                  some (.elem ⟨name⟩ children :: sibs, rest2)
              | _ => none
            else none
          | _ => none
      | _ => none
  | fuel + 1, c :: cs =>
    let txt := (c :: cs).takeWhile (fun ch => ch ≠ '<')
    match parseNodes fuel ((c :: cs).drop txt.length) with
    | none => none
    | some (ns, rest) => some (.text ⟨txt⟩ :: ns, rest)

/-- Model of `DOMParser.parseFromString(s, "text/xml")`: `some root` on a
well-formed single-rooted document, `none` for the error document. -/
def domParse (s : String) : Option XNode :=
  match parseNodes (s.data.length + 2) s.data with
  | some ([root], []) => some root
  | _ => none

/-- Model of `Document.getElementsByTagName` (empty on the error
document). -/
def getByTag (t : String) : Option XNode → List XNode
  | none => []
  | some root => (elemsN root).filter (hasTag t)

/-- Embedding of the per-document `getText` helper:
`el?.textContent?.replace(/MISSING|UNREADABLE/g, "")?.trim() || ""`. -/
def getTextSel (d : XNode) (sel : Sel) : String :=
  match querySelector d sel with
  | none => ""
  | some el => trimS (scrubS ⟨textContentN el⟩)

/-- The Order ID transformation applied to the notes text:
`.replace("Order ID:", "").trim()`. -/
def oidTransform (s : String) : String := trimS (replFirstS "Order ID:" s)

/-- CSV quoting: wrap in double quotes, doubling inner double quotes
(`field.replace(/"/g, s)` with a two-quote replacement is global). -/
def csvQuote (f : String) : String :=
  ⟨'"' :: (f.data.foldr (fun c acc =>
    if c = '"' then '"' :: '"' :: acc else c :: acc) ['"'])⟩

/-- The fixed header list of `convertXmlToCsv`. -/
def headers : List String :=
  ["Order ID",
   "Patient Name", "DOB", "Gender",
   "Doctor Name", "License", "Clinic",
   "Medicine", "Dosage", "Frequency", "Duration",
   "Height", "Weight", "Blood Type", "BP"]

/-- The selector list used for the non-ID columns, in column order. -/
def colSels : List Sel :=
  [⟨["Patient"], "Name"⟩, ⟨["Patient"], "DOB"⟩, ⟨["Patient"], "Gender"⟩,
   ⟨["Doctor"], "Name"⟩, ⟨["Doctor"], "LicenseNumber"⟩,
   ⟨["Doctor"], "Clinic"⟩,
   ⟨["Medicine", "Prescription"], "Name"⟩,
   ⟨["Medicine", "Prescription"], "Dosage"⟩,
   ⟨["Medicine", "Prescription"], "Frequency"⟩,
   ⟨["Medicine", "Prescription"], "Duration"⟩,
   ⟨["Vitals"], "Height"⟩, ⟨["Vitals"], "Weight"⟩,
   ⟨["Vitals"], "BloodType"⟩, ⟨["Vitals"], "BloodPressure"⟩]

/-- The raw (pre-quoting) field values of one `MedicalDocument` row. -/
def rowFields (d : XNode) : List String :=
  oidTransform (getTextSel d ⟨[], "Notes"⟩) ::
    colSels.map (getTextSel d)

/-- One CSV row for a `MedicalDocument` element. -/
def rowOf (d : XNode) : String :=
  String.intercalate "," ((rowFields d).map csvQuote)

/-- The header row of the table. -/
def headerLine : String := String.intercalate "," headers

/-- Embedding of `convertXmlToCsv`: wrap the input in a synthetic `Root`,
parse, and emit the header row followed by one row per `MedicalDocument`.
The source wraps the body in `try/catch` returning `""` on an exception;
in the model no operation throws (the DOM parser reports malformed markup
through the error document rather than an exception), so that branch is
dead and does not appear. -/
def convertXmlToCsv (s : String) : String :=
  let doc := domParse ("<Root>" ++ s ++ "</Root>")
  let docs := getByTag "MedicalDocument" doc
  String.intercalate "\n" (headerLine :: docs.map rowOf)

/-! ## Batch orchestrator

State of the `Home` component. `UploadedImage` is declared outside this
repository; its fields are taken from their uses in `home.tsx`
(`id`, `file`, `preview`, `status`, `progress`, `rawText`, `parsedData`,
`error`). The `File` payload is represented by its name; the preview
handle by its URL string. Timer-driven cosmetics (the random progress
interval and the staged `processingStage` ticker) are wall-clock driven
and are not modelled beyond the deterministic writes the handlers make. -/

/-- Record status, as used by `home.tsx`. -/
inductive Status where
  | pending
  | processing
  | complete
  | error
deriving Repr, DecidableEq

/-- A document record (`UploadedImage`). -/
structure Rec where
  id : String
  fileName : String
  preview : String
  status : Status
  progress : Nat
  rawText : String
  parsedData : Option String
  errorMsg : Option String
deriving Repr, DecidableEq

instance : Inhabited Rec :=
  ⟨⟨"", "", "", .pending, 0, "", none, none⟩⟩

/-- The cosmetic processing-stage signal. -/
inductive Stage where
  | idle
  | uploading
  | ocr
  | reasoning
  | validating
  | complete
deriving Repr, DecidableEq

/-- Component state: the batch, the combined markup output, the step of
the workflow, and the cosmetic processing flags. -/
structure HomeState where
  uploadedImages : List Rec
  xmlOutput : String
  activeStep : Nat
  isProcessing : Bool
  processingStage : Stage
  progressValue : Nat
deriving Repr, DecidableEq

/-- Result of one extraction call (`POST /api/process-image`): a success
carries `rawText` and `xml`; a failure carries the message thrown
(`errorData.message || "Server processing failed"` wrapped in `Error`). -/
inductive ApiResult where
  | ok (rawText xml : String)
  | err (message : String)
deriving Repr, DecidableEq

/-- Map-by-id record update, the `prev.map(img => img.id === id ? ... )`
pattern used throughout the source. -/
def mapById (i : String) (g : Rec → Rec) (l : List Rec) : List Rec :=
  l.map (fun r => if r.id = i then g r else r)

/-- Embedding of `handleFilesSelected`: the records created for one call,
given the call's `Date.now()` value and the file names in order. -/
def mkRecs (now : Nat) (names : List String) : List Rec :=
  names.enum.map (fun p =>
    { id := Nat.repr now ++ "-" ++ Nat.repr p.1 ++ "-" ++ p.2,
      fileName := p.2,
      preview := "blob:" ++ p.2,
      status := .pending,
      progress := 0,
      rawText := "",
      parsedData := none,
      errorMsg := none })

/-- Embedding of `handleFilesSelected`: append the new records to the
batch. The notification toast is cosmetic and not part of the state. -/
def handleFilesSelected (now : Nat) (names : List String)
    (s : HomeState) : HomeState :=
  { s with uploadedImages := s.uploadedImages ++ mkRecs now names }

/-- Embedding of `handleRemoveImage`: drop the records with the given id;
if the batch becomes empty, also clear the combined output and reset the
workflow step. Revoking the preview URL is an external effect. -/
def handleRemoveImage (i : String) (s : HomeState) : HomeState :=
  let remaining := s.uploadedImages.filter (fun r => r.id ≠ i)
  if remaining.isEmpty then
    { s with uploadedImages := remaining, xmlOutput := "", activeStep := 1 }
  else
    { s with uploadedImages := remaining }

/-- Embedding of `handleRetry`: reset every `error` record to `pending`
with cleared message and zero progress, return to step 1 and clear the
combined output. -/
def handleRetry (s : HomeState) : HomeState :=
  { s with
    uploadedImages := s.uploadedImages.map (fun r =>
      if r.status = .error then
        { r with status := .pending, errorMsg := none, progress := 0 }
      else r),
    activeStep := 1,
    xmlOutput := "" }

/-- Eligibility test of `processImages`:
`img.status === "pending" || img.status === "error"`. -/
def eligible (r : Rec) : Bool :=
  r.status = .pending || r.status = .error

/-- The record patch applied when an item starts processing. -/
def procF (r : Rec) : Rec :=
  { r with status := .processing, progress := 30 }

/-- The record patch applied on extraction success; note only `rawText`
is written, `parsedData` is left as it was. -/
def doneF (raw : String) (r : Rec) : Rec :=
  { r with status := .complete, progress := 100, rawText := raw }

/-- The record patch applied to the first eligible record on failure. -/
def errF (m : String) (r : Rec) : Rec :=
  { r with status := .error, errorMsg := some m }

/-- Record update when an item starts processing. -/
def markProcessing (i : String) (s : HomeState) : HomeState :=
  { s with uploadedImages := mapById i procF s.uploadedImages }

/-- Record update on extraction success. -/
def markDone (i : String) (raw : String) (s : HomeState) : HomeState :=
  { s with uploadedImages := mapById i (doneF raw) s.uploadedImages }

/-- The combined-output update
`setXmlOutput(prev => prev ? prev + "\n" + data.xml : data.xml)`. -/
def joinXml (prev xml : String) : String :=
  if prev = "" then xml else prev ++ "\n" ++ xml

/-- Append one fragment to the combined output. -/
def pushXml (xml : String) (s : HomeState) : HomeState :=
  { s with xmlOutput := joinXml s.xmlOutput xml }

/-- The `for (const image of pendingImages)` loop of `processImages`:
process items in order, stopping at the first failed call. Returns the
state, the success count, and the failure message if one was thrown. -/
def runLoop (api : String → ApiResult) :
    List Rec → HomeState → Nat → HomeState × Nat × Option String
  | [], s, n => (s, n, none)
  | r :: rest, s, n =>
    let s1 := markProcessing r.id s
    match api r.id with
    | .err m => (s1, n, some m)
    | .ok raw xml => runLoop api rest (pushXml xml (markDone r.id raw s1)) (n + 1)

/-- State writes performed before the loop starts. -/
def beginRun (s : HomeState) : HomeState :=
  { s with
      isProcessing := true,
      activeStep := 2,
      processingStage := .uploading,
      progressValue := 10 }

/-- The `catch` and `finally` blocks of `processImages`: on failure, mark
the FIRST eligible record (`pendingImages[0]`) as `error` with the thrown
message; then clear the processing flags and, when at least one item
succeeded, advance to the results step. -/
def finishRun (firstId : String) :
    HomeState × Nat × Option String → HomeState × Nat × Option String
  | (s1, n, res) =>
    let s2 := match res with
      | some m =>
        { s1 with uploadedImages :=
            mapById firstId (errF m) s1.uploadedImages }
      | none => s1
    let s3 := { s2 with
                  isProcessing := false,
                  processingStage := .complete,
                  progressValue := 100 }
    ((if n > 0 then { s3 with activeStep := 3 } else s3), n, res)

/-- Embedding of `processImages`. The returned triple is the new state,
the success count shown by the success toast (shown iff positive), and
the message of the failure toast (shown iff present). -/
def processImages (api : String → ApiResult) (s : HomeState) :
    HomeState × Nat × Option String :=
  let elig := s.uploadedImages.filter eligible
  if elig.isEmpty then (s, 0, none)
  else finishRun elig.headI.id (runLoop api elig (beginRun s) 0)

/-! ## Concrete scenarios used by the counterexamples and witnesses -/

/-- A fresh pending record with the given id (doubling as file name). -/
def demoRec (i : String) : Rec :=
  { id := i, fileName := i, preview := "", status := .pending,
    progress := 0, rawText := "", parsedData := none, errorMsg := none }

/-- A fresh three-record batch, ids `a`, `b`, `c`, all pending. -/
def demoState3 : HomeState :=
  { uploadedImages := [demoRec "a", demoRec "b", demoRec "c"],
    xmlOutput := "", activeStep := 1, isProcessing := false,
    processingStage := .idle, progressValue := 0 }

/-- An extraction oracle that succeeds for `a` and `b` and fails for `c`
with message `boom`. -/
def demoApi3 : String → ApiResult :=
  fun i => if i = "c" then .err "boom" else .ok ("raw" ++ i) ("x" ++ i)

/-- A single-record batch. -/
def demoState1 : HomeState :=
  { uploadedImages := [demoRec "a"],
    xmlOutput := "", activeStep := 1, isProcessing := false,
    processingStage := .idle, progressValue := 0 }

/-- A single pending record next to a leftover combined output from an
earlier run. -/
def demoStateOld : HomeState :=
  { demoState1 with xmlOutput := "old" }

/-- A document whose dosage field text is literally
`Dosage: 500mg MISSING`. -/
def demoDoc8 : XNode :=
  .elem "MedicalDocument"
    [.elem "Prescription"
      [.elem "Medicine" [.elem "Dosage" [.text "Dosage: 500mg MISSING"]]]]

/-- A document whose notes text contains `Order ID:` in the middle
rather than as a leading marker. -/
def demoDoc9 : XNode :=
  .elem "MedicalDocument" [.elem "Notes" [.text "Ref Order ID: 7"]]

/-! ## Claim theorems -/

/-- C1, counterexample. For the three-record batch `a`, `b`, `c`, all
pending, where the call succeeds for records 1 and 2 and fails for
record 3: after the run the statuses are `error`, `complete`,
`processing` — not `complete`, `complete`, `error` as the claim states
(the failure is attributed to `pendingImages[0]`, i.e. record 1, and
record 3 is left `processing`). -/
theorem c1_counterexample :
    (processImages demoApi3 demoState3).1.uploadedImages.map
        (fun r => r.status) = [.error, .complete, .processing] ∧
      ¬ (processImages demoApi3 demoState3).1.uploadedImages.map
          (fun r => r.status) = [.complete, .complete, .error] := by
  decide

/-- C3, counterexample. A successful run stores only `rawText` on the
record: `parsedData` stays `none`, so the structured output `xml` is not
stored on the record even though the call returned it. -/
theorem c3_counterexample :
    (processImages (fun _ => .ok "raw" "xml") demoState1).1.uploadedImages.map
        (fun r => (r.status, r.parsedData, r.rawText)) =
      [(.complete, none, "raw")] ∧
      (none : Option String) ≠ some "xml" := by
  decide

/-- C4, counterexample. Starting a new run does not clear the combined
output: with leftover output `old` and one pending record whose call
returns fragment `new`, the run ends with `old
new`, not `new`. -/
theorem c4_counterexample :
    (processImages (fun _ => .ok "r" "new") demoStateOld).1.xmlOutput =
        "old" ++ "\n" ++ "new" ∧
      "old" ++ "\n" ++ "new" ≠ "new" := by
  decide

/-- C5. On malformed input the conversion returns the bare header row,
not the empty string: the DOM parser reports the well-formedness error
through an error document instead of throwing, so the `catch` branch
that would return `""` never runs. -/
theorem c5_malformed_returns_header_row :
    convertXmlToCsv "<unclosed" = headerLine ∧ headerLine ≠ "" := by
  decide

/-- C7, counterexample. Two `addFiles` calls that share one `Date.now()`
millisecond and a file name produce colliding ids. -/
theorem c7_counterexample :
    (handleFilesSelected 5 ["a"]
        (handleFilesSelected 5 ["a"] demoState1)).uploadedImages.map
        (fun r => r.id) = ["a", "5-0-a", "5-0-a"] ∧
      ¬ ((handleFilesSelected 5 ["a"]
          (handleFilesSelected 5 ["a"] demoState1)).uploadedImages.map
          (fun r => r.id)).Nodup := by
  decide

/-- C8, counterexample. A dosage field containing the text
`Dosage: 500mg MISSING` yields `Dosage: 500mg` in the Dosage column —
only the sentinel substring is removed and the value trimmed; no
`Dosage:` marker is stripped, so the claimed `500mg` is wrong. -/
theorem c8_counterexample :
    (rowFields demoDoc8)[8]? = some "Dosage: 500mg" ∧
      some "Dosage: 500mg" ≠ some "500mg" := by
  decide

/-- C9, counterexample. A notes field `Ref Order ID: 7` does not start
with `Order ID:`, yet the Order ID column is `Ref  7`, not the unchanged
field: the first occurrence of `Order ID:` is removed wherever it
appears. -/
theorem c9_counterexample :
    (rowFields demoDoc9)[0]? = some "Ref  7" ∧
      "Ref  7" ≠ "Ref Order ID: 7" := by
  decide

/-- A record marked as a failed extraction, used by the scenarios. -/
def demoRecA : Rec :=
  { demoRec "a" with
      status := .error,
      errorMsg := some "m",
      progress := 30 }

/-- A record marked complete with full progress, used by the scenarios. -/
def demoRecB : Rec :=
  { demoRec "b" with
      status := .complete,
      progress := 100 }

/-- A state with one `error` record (`demoRecA`) and one `complete`
record (`demoRecB`), combined output `zz`, at the results step. -/
def demoStateErr : HomeState :=
  { uploadedImages := [demoRecA, demoRecB],
    xmlOutput := "zz",
    activeStep := 3,
    isProcessing := false,
    processingStage := .complete,
    progressValue := 100 }

/-- C6. `handleRetry` returns to step 1, clears the combined output, and
maps each record positionally: an `error` record becomes `pending` with
progress 0 and no message, any other record is untouched. -/
theorem c6_retry_resets (s : HomeState) :
    (handleRetry s).activeStep = 1 ∧
    (handleRetry s).xmlOutput = "" ∧
    (handleRetry s).uploadedImages.length = s.uploadedImages.length ∧
    ∀ (i : Nat) (r : Rec), s.uploadedImages[i]? = some r →
      (r.status = .error →
        (handleRetry s).uploadedImages[i]? =
          some { r with
                   status := .pending,
                   progress := 0,
                   errorMsg := none }) ∧
      (r.status ≠ .error → (handleRetry s).uploadedImages[i]? = some r) := by
  refine ⟨rfl, rfl, by simp [handleRetry], ?_⟩
  intro i r h
  constructor
  · intro hs
    simp [handleRetry, List.getElem?_map, h, hs]
  · intro hs
    simp [handleRetry, List.getElem?_map, h, hs]

/-- C6, witness at `demoStateErr`: the `error` record is reset, the
`complete` record is untouched. -/
theorem c6_retry_resets_witness :
    (handleRetry demoStateErr).uploadedImages[0]? =
        some { demoRecA with
                 status := .pending,
                 progress := 0,
                 errorMsg := none } ∧
      (handleRetry demoStateErr).uploadedImages[1]? = some demoRecB := by
  constructor
  · exact ((c6_retry_resets demoStateErr).2.2.2 0 demoRecA
      (by decide)).1 (by decide)
  · exact ((c6_retry_resets demoStateErr).2.2.2 1 demoRecB
      (by decide)).2 (by decide)

/-- C10. Removing one record from a batch of at least two (with the
documented unique-id invariant) leaves the combined output and the
workflow step unchanged, and every record with a different id stays in
the batch unchanged; in particular a removed `complete` record's
contribution remains in the combined output. -/
theorem c10_remove_frame (s : HomeState) (i : String)
    (hlen : 2 ≤ s.uploadedImages.length)
    (hnd : (s.uploadedImages.map (fun r => r.id)).Nodup) :
    (handleRemoveImage i s).xmlOutput = s.xmlOutput ∧
    (handleRemoveImage i s).activeStep = s.activeStep ∧
    ∀ r ∈ s.uploadedImages, r.id ≠ i →
      r ∈ (handleRemoveImage i s).uploadedImages := by
  have hex : ∃ r ∈ s.uploadedImages, r.id ≠ i := by
    match hu : s.uploadedImages, hlen with
    | a :: b :: t, _ =>
      rw [hu] at hnd
      have hab : a.id ≠ b.id := by
        simp only [List.map_cons, List.nodup_cons] at hnd
        intro hEq
        exact hnd.1 (by simp [hEq])
      by_cases ha : a.id = i
      · exact ⟨b, by simp, fun hbi => hab (by rw [ha, hbi])⟩
      · exact ⟨a, by simp, ha⟩
  have hcond : ¬ ∀ a ∈ s.uploadedImages, a.id = i := by
    obtain ⟨r, hr, hri⟩ := hex
    exact fun hall => hri (hall r hr)
  refine ⟨?_, ?_, ?_⟩
  · simp [handleRemoveImage, hcond]
  · simp [handleRemoveImage, hcond]
  · intro r hr hri
    simp [handleRemoveImage, hcond, List.mem_filter, hr, hri]

/-- C10, witness: removing `b` from the three-record batch keeps the
combined output and keeps record `a`. -/
theorem c10_remove_frame_witness :
    2 ≤ demoState3.uploadedImages.length ∧
      (handleRemoveImage "b" demoState3).xmlOutput = demoState3.xmlOutput ∧
      demoRec "a" ∈ (handleRemoveImage "b" demoState3).uploadedImages := by
  refine ⟨by decide,
    (c10_remove_frame demoState3 "b" (by decide) (by decide)).1, ?_⟩
  exact (c10_remove_frame demoState3 "b" (by decide) (by decide)).2.2
    (demoRec "a") (by decide) (by decide)

/-- C4, amended. The combined output is cleared when the batch becomes
empty through removal and when `handleRetry` starts a new batch, but a
`processImages` run does not clear it: a run over a single eligible
record appends the new fragment after whatever was there. -/
theorem c4_clearing_policy :
    (∀ i s, (handleRemoveImage i s).uploadedImages.isEmpty = true →
        (handleRemoveImage i s).xmlOutput = "") ∧
      (∀ s, (handleRetry s).xmlOutput = "") ∧
      ∀ api s r raw xml, s.uploadedImages.filter eligible = [r] →
        api r.id = .ok raw xml →
        (processImages api s).1.xmlOutput = joinXml s.xmlOutput xml := by
  refine ⟨?_, fun s => rfl, ?_⟩
  · intro i s h
    simp only [handleRemoveImage] at h ⊢
    split at h <;> split <;> simp_all
  · intro api s r raw xml hf ha
    simp [processImages, hf, runLoop, ha, finishRun, pushXml, markDone,
      markProcessing, beginRun, procF, doneF, errF]

/-- C4, witness: removing the last record clears the output; a retry
clears the output; a run over `demoStateOld` appends after `old`. -/
theorem c4_clearing_policy_witness :
    (handleRemoveImage "a" demoState1).uploadedImages.isEmpty = true ∧
      (handleRemoveImage "a" demoState1).xmlOutput = "" ∧
      (handleRetry demoStateErr).xmlOutput = "" ∧
      (processImages (fun _ => .ok "r" "new") demoStateOld).1.xmlOutput =
        joinXml demoStateOld.xmlOutput "new" := by
  refine ⟨by decide, c4_clearing_policy.1 "a" demoState1 (by decide),
    c4_clearing_policy.2.1 demoStateErr,
    c4_clearing_policy.2.2 (fun _ => .ok "r" "new") demoStateOld
      (demoRec "a") "r" "new" (by decide) (by decide)⟩

/-- C1, amended. For any three-record batch, all pending with distinct
ids and empty combined output, where the call succeeds for records 1 and
2 and fails for record 3: both successful outputs are appended to the
combined output in order and the reported success count is 2, but the
failure is attributed to record 1 (the first of the eligible set), which
ends `error` with the failure message, while record 3 is left
`processing`; record 2 ends `complete`. -/
theorem c1_amended_run (s : HomeState) (r1 r2 r3 : Rec)
    (api : String → ApiResult) (raw1 xml1 raw2 xml2 m : String)
    (hups : s.uploadedImages = [r1, r2, r3])
    (hx : s.xmlOutput = "")
    (h1 : r1.status = .pending) (h2 : r2.status = .pending)
    (h3 : r3.status = .pending)
    (h12 : r1.id ≠ r2.id) (h13 : r1.id ≠ r3.id) (h23 : r2.id ≠ r3.id)
    (hx1 : xml1 ≠ "")
    (ha1 : api r1.id = .ok raw1 xml1) (ha2 : api r2.id = .ok raw2 xml2)
    (ha3 : api r3.id = .err m) :
    (processImages api s).1.uploadedImages.map (fun r => r.status) =
        [.error, .complete, .processing] ∧
      (processImages api s).1.uploadedImages.map (fun r => r.errorMsg) =
        [some m, r2.errorMsg, r3.errorMsg] ∧
      (processImages api s).1.xmlOutput = xml1 ++ "\n" ++ xml2 ∧
      (processImages api s).2.1 = 2 ∧
      (processImages api s).2.2 = some m := by
  have h21 : r2.id ≠ r1.id := h12.symm
  have h31 : r3.id ≠ r1.id := h13.symm
  have h32 : r3.id ≠ r2.id := h23.symm
  simp [processImages, hups, hx, eligible, h1, h2, h3, List.headI,
    runLoop, beginRun, markProcessing, markDone, pushXml, mapById,
    joinXml, ha1, ha2, ha3, finishRun, procF, doneF, errF,
    h12, h13, h23, h21, h31, h32, hx1]

/-- C1, amended, witness: the concrete three-record scenario. -/
theorem c1_amended_run_witness :
    (processImages demoApi3 demoState3).1.uploadedImages.map
        (fun r => r.status) = [.error, .complete, .processing] ∧
      (processImages demoApi3 demoState3).1.uploadedImages.map
        (fun r => r.errorMsg) = [some "boom", none, none] ∧
      (processImages demoApi3 demoState3).1.xmlOutput =
        "xa" ++ "\n" ++ "xb" ∧
      (processImages demoApi3 demoState3).2.1 = 2 ∧
      (processImages demoApi3 demoState3).2.2 = some "boom" :=
  c1_amended_run demoState3 (demoRec "a") (demoRec "b") (demoRec "c")
    demoApi3 "rawa" "xa" "rawb" "xb" "boom" rfl rfl rfl rfl rfl
    (by decide) (by decide) (by decide) (by decide)
    (by decide) (by decide) (by decide)

/-! ## Loop infrastructure for the batch-run theorems -/

/-- One successful iteration of the loop as a fold step (on a failing
call it leaves the state unchanged; the fold is only ever applied to
records whose call succeeds). -/
def stepOk (api : String → ApiResult) (st : HomeState) (r : Rec) :
    HomeState :=
  match api r.id with
  | .ok raw xml => pushXml xml (markDone r.id raw (markProcessing r.id st))
  | .err _ => st

/-- The state after the loop has processed a list of succeeding records. -/
def runOkFold (api : String → ApiResult) (l : List Rec) (s : HomeState) :
    HomeState :=
  l.foldl (stepOk api) s

theorem mapById_id (i : String) (g : Rec → Rec)
    (hg : ∀ r, (g r).id = r.id) (l : List Rec) :
    (mapById i g l).map (fun r => r.id) = l.map (fun r => r.id) := by
  simp only [mapById, List.map_map]
  congr 1
  funext r
  simp only [Function.comp_apply]
  split <;> simp [hg]

theorem mapById_mem (i : String) (g : Rec → Rec) (l : List Rec) (r : Rec)
    (hr : r ∈ l) (hne : r.id ≠ i) : r ∈ mapById i g l := by
  refine List.mem_map.mpr ⟨r, hr, ?_⟩
  simp [hne]

theorem find?_map_keepId (l : List Rec) (f : Rec → Rec)
    (hf : ∀ r, (f r).id = r.id) (y : String) :
    (l.map f).find? (fun q => q.id = y) =
      (l.find? (fun q => q.id = y)).map f := by
  induction l with
  | nil => rfl
  | cons a t ih =>
    by_cases ha : a.id = y
    · simp [List.find?_cons, hf, ha]
    · simp [List.find?_cons, hf, ha, ih]

theorem mapById_find?_ne (i : String) (g : Rec → Rec)
    (hg : ∀ r, (g r).id = r.id) (x : String) (hx : x ≠ i) (l : List Rec) :
    (mapById i g l).find? (fun r => r.id = x) =
      l.find? (fun r => r.id = x) := by
  have hF : ∀ r : Rec, (if r.id = i then g r else r).id = r.id := by
    intro r
    split <;> simp [hg]
  rw [mapById, find?_map_keepId _ _ hF]
  cases hfind : l.find? (fun q => q.id = x) with
  | none => rfl
  | some r =>
    have hr : r.id = x := by simpa using List.find?_some hfind
    have : ¬ r.id = i := by rw [hr]; exact hx
    simp [this]

theorem mapById_find?_eq (i : String) (g : Rec → Rec)
    (hg : ∀ r, (g r).id = r.id) (l : List Rec) :
    (mapById i g l).find? (fun r => r.id = i) =
      (l.find? (fun r => r.id = i)).map g := by
  have hF : ∀ r : Rec, (if r.id = i then g r else r).id = r.id := by
    intro r
    split <;> simp [hg]
  rw [mapById, find?_map_keepId _ _ hF]
  cases hfind : l.find? (fun q => q.id = i) with
  | none => rfl
  | some r =>
    have hr : r.id = i := by simpa using List.find?_some hfind
    simp [hr]

theorem nodup_find?_self (l : List Rec)
    (hnd : (l.map (fun r => r.id)).Nodup) (r : Rec) (hr : r ∈ l) :
    l.find? (fun q => q.id = r.id) = some r := by
  induction l with
  | nil => cases hr
  | cons a t ih =>
    simp only [List.map_cons, List.nodup_cons] at hnd
    rcases List.mem_cons.mp hr with rfl | hrt
    · simp [List.find?_cons]
    · have hne : a.id ≠ r.id := by
        intro hEq
        exact hnd.1 (hEq ▸ List.mem_map_of_mem (fun q => q.id) hrt)
      simp [List.find?_cons, hne, ih hnd.2 hrt]

theorem stepOk_ups_id (api : String → ApiResult) (st : HomeState) (r : Rec) :
    (stepOk api st r).uploadedImages.map (fun q => q.id) =
      st.uploadedImages.map (fun q => q.id) := by
  unfold stepOk
  cases api r.id with
  | ok raw xml =>
    simp only [pushXml, markDone, markProcessing]
    rw [mapById_id r.id (doneF raw) (fun q => rfl),
      mapById_id r.id procF (fun q => rfl)]
  | err m => rfl

theorem stepOk_mem (api : String → ApiResult) (st : HomeState) (x r : Rec)
    (hr : r ∈ st.uploadedImages) (hne : r.id ≠ x.id) :
    r ∈ (stepOk api st x).uploadedImages := by
  unfold stepOk
  cases api x.id with
  | ok raw xml =>
    simp only [pushXml, markDone, markProcessing]
    exact mapById_mem _ _ _ _ (mapById_mem _ _ _ _ hr hne) hne
  | err m => exact hr

theorem stepOk_find?_ne (api : String → ApiResult) (st : HomeState)
    (x : Rec) (y : String) (hy : y ≠ x.id) :
    (stepOk api st x).uploadedImages.find? (fun q => q.id = y) =
      st.uploadedImages.find? (fun q => q.id = y) := by
  unfold stepOk
  cases api x.id with
  | ok raw xml =>
    simp only [pushXml, markDone, markProcessing]
    rw [mapById_find?_ne x.id (doneF raw) (fun r => rfl) y hy,
      mapById_find?_ne x.id procF (fun r => rfl) y hy]
  | err m => rfl

theorem stepOk_find?_self (api : String → ApiResult) (st : HomeState)
    (x : Rec) (raw xml : String) (hx : api x.id = .ok raw xml) :
    (stepOk api st x).uploadedImages.find? (fun q => q.id = x.id) =
      (st.uploadedImages.find? (fun q => q.id = x.id)).map (doneF raw) := by
  unfold stepOk
  rw [hx]
  simp only [pushXml, markDone, markProcessing]
  rw [mapById_find?_eq x.id (doneF raw) (fun r => rfl),
    mapById_find?_eq x.id procF (fun r => rfl),
    Option.map_map]
  rfl

theorem runOkFold_ups_id (api : String → ApiResult) :
    ∀ (l : List Rec) (s : HomeState),
      (runOkFold api l s).uploadedImages.map (fun q => q.id) =
        s.uploadedImages.map (fun q => q.id) := by
  intro l
  induction l with
  | nil => intro s; rfl
  | cons a t ih =>
    intro s
    simp only [runOkFold, List.foldl_cons] at ih ⊢
    rw [ih, stepOk_ups_id]

theorem runOkFold_mem (api : String → ApiResult) :
    ∀ (l : List Rec) (s : HomeState) (r : Rec),
      r ∈ s.uploadedImages → r.id ∉ l.map (fun q => q.id) →
      r ∈ (runOkFold api l s).uploadedImages := by
  intro l
  induction l with
  | nil => intro s r hr _; exact hr
  | cons a t ih =>
    intro s r hr hnotin
    simp only [List.map_cons, List.mem_cons] at hnotin
    push_neg at hnotin
    exact ih _ r (stepOk_mem api s a r hr hnotin.1) hnotin.2

theorem runOkFold_find?_ne (api : String → ApiResult) :
    ∀ (l : List Rec) (s : HomeState) (y : String),
      y ∉ l.map (fun q => q.id) →
      (runOkFold api l s).uploadedImages.find? (fun q => q.id = y) =
        s.uploadedImages.find? (fun q => q.id = y) := by
  intro l
  induction l with
  | nil => intro s y _; rfl
  | cons a t ih =>
    intro s y hy
    simp only [List.map_cons, List.mem_cons] at hy
    push_neg at hy
    simp only [runOkFold, List.foldl_cons] at ih ⊢
    rw [ih _ _ hy.2, stepOk_find?_ne _ _ _ _ hy.1]

theorem runOkFold_xml (api : String → ApiResult)
    (xmlOf : String → String) :
    ∀ (l : List Rec) (s : HomeState),
      (∀ q ∈ l, ∃ raw, api q.id = .ok raw (xmlOf q.id)) →
      (runOkFold api l s).xmlOutput =
        l.foldl (fun x q => joinXml x (xmlOf q.id)) s.xmlOutput := by
  intro l
  induction l with
  | nil => intro s _; rfl
  | cons a t ih =>
    intro s hok
    obtain ⟨raw, ha⟩ := hok a (List.mem_cons_self a t)
    simp only [runOkFold, List.foldl_cons] at ih ⊢
    rw [ih _ (fun q hq => hok q (List.mem_cons_of_mem a hq))]
    have hstep : (stepOk api s a).xmlOutput = joinXml s.xmlOutput (xmlOf a.id) := by
      unfold stepOk
      rw [ha]
      rfl
    rw [hstep]

theorem runOkFold_find?_mem (api : String → ApiResult)
    (rawOf xmlOf : String → String) :
    ∀ (l : List Rec) (s : HomeState),
      (l.map (fun q => q.id)).Nodup →
      (∀ q ∈ l, api q.id = .ok (rawOf q.id) (xmlOf q.id)) →
      ∀ r ∈ l,
        (runOkFold api l s).uploadedImages.find? (fun q => q.id = r.id) =
          (s.uploadedImages.find? (fun q => q.id = r.id)).map
            (doneF (rawOf r.id)) := by
  intro l
  induction l with
  | nil => intro s _ _ r hr; cases hr
  | cons a t ih =>
    intro s hnd hok r hr
    simp only [List.map_cons, List.nodup_cons] at hnd
    have hunf : runOkFold api (a :: t) s = runOkFold api t (stepOk api s a) :=
      rfl
    rcases List.mem_cons.mp hr with rfl | hrt
    · have hstep := stepOk_find?_self api s r (rawOf r.id) (xmlOf r.id)
        (hok r (List.mem_cons_self r t))
      rw [hunf, runOkFold_find?_ne api t _ _ hnd.1, hstep]
    · have hne : r.id ≠ a.id := by
        intro hEq
        exact hnd.1 (hEq ▸ List.mem_map_of_mem (fun q => q.id) hrt)
      rw [hunf,
        ih _ hnd.2 (fun q hq => hok q (List.mem_cons_of_mem a hq)) r hrt,
        stepOk_find?_ne _ _ _ _ hne]

theorem runLoop_ok_all (api : String → ApiResult) :
    ∀ (l : List Rec) (s : HomeState) (n : Nat),
      (∀ r ∈ l, ∃ raw xml, api r.id = .ok raw xml) →
      runLoop api l s n = (runOkFold api l s, n + l.length, none) := by
  intro l
  induction l with
  | nil => intro s n _; simp [runLoop, runOkFold]
  | cons a t ih =>
    intro s n hok
    obtain ⟨raw, xml, ha⟩ := hok a (List.mem_cons_self a t)
    simp only [runLoop, ha]
    rw [ih _ (n + 1) (fun r hr => hok r (List.mem_cons_of_mem a hr))]
    have hstep : stepOk api s a =
        pushXml xml (markDone a.id raw (markProcessing a.id s)) := by
      unfold stepOk
      rw [ha]
    simp only [runOkFold, List.foldl_cons, hstep, List.length_cons,
      Prod.mk.injEq]
    refine ⟨by trivial, by omega, by trivial⟩

theorem runLoop_fail (api : String → ApiResult) (f : Rec) (m : String)
    (hf : api f.id = .err m) :
    ∀ (pre post : List Rec) (s : HomeState) (n : Nat),
      (∀ r ∈ pre, ∃ raw xml, api r.id = .ok raw xml) →
      runLoop api (pre ++ f :: post) s n =
        (markProcessing f.id (runOkFold api pre s), n + pre.length,
          some m) := by
  intro pre
  induction pre with
  | nil =>
    intro post s n _
    simp [runLoop, hf, runOkFold]
  | cons a t ih =>
    intro post s n hok
    obtain ⟨raw, xml, ha⟩ := hok a (List.mem_cons_self a t)
    simp only [List.cons_append, runLoop, ha, List.append_eq]
    rw [ih post _ (n + 1) (fun r hr => hok r (List.mem_cons_of_mem a hr))]
    have hstep : stepOk api s a =
        pushXml xml (markDone a.id raw (markProcessing a.id s)) := by
      unfold stepOk
      rw [ha]
    simp only [runOkFold, List.foldl_cons, hstep, List.length_cons,
      Prod.mk.injEq]
    refine ⟨by trivial, by omega, by trivial⟩

theorem finishRun_none_ups (i0 : String) (st : HomeState) (n : Nat) :
    (finishRun i0 (st, n, none)).1.uploadedImages = st.uploadedImages := by
  simp only [finishRun]
  split <;> rfl

theorem finishRun_none_xml (i0 : String) (st : HomeState) (n : Nat) :
    (finishRun i0 (st, n, none)).1.xmlOutput = st.xmlOutput := by
  simp only [finishRun]
  split <;> rfl

theorem finishRun_some_ups (i0 : String) (st : HomeState) (n : Nat)
    (m : String) :
    (finishRun i0 (st, n, some m)).1.uploadedImages =
      mapById i0 (errF m) st.uploadedImages := by
  simp only [finishRun]
  split <;> rfl

theorem finishRun_count (i0 : String) (st : HomeState) (n : Nat)
    (res : Option String) :
    (finishRun i0 (st, n, res)).2 = (n, res) := rfl

/-- C3, amended. When every eligible record's call succeeds: each such
record ends exactly as `doneF` leaves it — `complete`, progress 100,
the response's `rawText` stored, and `parsedData` (the record's
structured-output slot) unchanged, so the structured output is NOT
stored on the record; the structured outputs are folded into the
combined output in batch order; and the success count equals the number
of eligible records (one increment per success). -/
theorem c3_success_updates (api : String → ApiResult) (s : HomeState)
    (rawOf xmlOf : String → String)
    (hnd : (s.uploadedImages.map (fun r => r.id)).Nodup)
    (hok : ∀ r ∈ s.uploadedImages.filter eligible,
      api r.id = .ok (rawOf r.id) (xmlOf r.id)) :
    (∀ r ∈ s.uploadedImages.filter eligible,
      (processImages api s).1.uploadedImages.find? (fun q => q.id = r.id) =
        some (doneF (rawOf r.id) r)) ∧
    (processImages api s).1.xmlOutput =
      (s.uploadedImages.filter eligible).foldl
        (fun x r => joinXml x (xmlOf r.id)) s.xmlOutput ∧
    (processImages api s).2.1 = (s.uploadedImages.filter eligible).length ∧
    (processImages api s).2.2 = none := by
  by_cases hE : (s.uploadedImages.filter eligible).isEmpty = true
  · have hnil : s.uploadedImages.filter eligible = [] := List.isEmpty_iff.mp hE
    have hout : processImages api s = (s, 0, none) := by
      simp only [processImages]
      rw [if_pos hE]
    rw [hout, hnil]
    refine ⟨fun r hr => absurd hr (List.not_mem_nil r), ?_, ?_, ?_⟩ <;> rfl
  · have hloop := runLoop_ok_all api (s.uploadedImages.filter eligible)
      (beginRun s) 0 (fun r hr => ⟨rawOf r.id, xmlOf r.id, hok r hr⟩)
    have hout : processImages api s =
        finishRun (s.uploadedImages.filter eligible).headI.id
          (runOkFold api (s.uploadedImages.filter eligible) (beginRun s),
            0 + (s.uploadedImages.filter eligible).length, none) := by
      simp only [processImages]
      rw [if_neg hE, hloop]
    have hndE : ((s.uploadedImages.filter eligible).map
        (fun r => r.id)).Nodup :=
      hnd.sublist ((List.filter_sublist s.uploadedImages).map (fun r => r.id))
    refine ⟨?_, ?_, ?_, ?_⟩
    · intro r hr
      rw [hout, finishRun_none_ups,
        runOkFold_find?_mem api rawOf xmlOf _ _ hndE hok r hr]
      have hfind : (beginRun s).uploadedImages.find? (fun q => q.id = r.id) =
          some r :=
        nodup_find?_self s.uploadedImages hnd r
          (List.mem_of_mem_filter hr)
      rw [hfind]
      rfl
    · rw [hout, finishRun_none_xml,
        runOkFold_xml api xmlOf _ _
          (fun q hq => ⟨rawOf q.id, hok q hq⟩)]
      rfl
    · rw [hout, finishRun_count]
      simp
    · rw [hout, finishRun_count]

/-- C3, amended, witness: the three-record batch under an all-success
oracle; record `a` ends `complete` with its raw text, `parsedData` still
`none`. -/
theorem c3_success_updates_witness :
    ((processImages (fun i => .ok ("r" ++ i) ("x" ++ i))
          demoState3).1.uploadedImages.find?
        (fun q => q.id = (demoRec "a").id) =
      some (doneF "ra" (demoRec "a"))) ∧
    (processImages (fun i => .ok ("r" ++ i) ("x" ++ i))
        demoState3).2.1 = 3 := by
  have h := c3_success_updates (fun i => .ok ("r" ++ i) ("x" ++ i))
    demoState3 (fun i => "r" ++ i) (fun i => "x" ++ i)
    (by decide) (by decide)
  exact ⟨h.1 (demoRec "a") (by decide), h.2.2.1⟩

/-- C2. When the extraction call fails at some point of the run (every
record of `pre` succeeds, `f` fails with message `m`): a record carrying
the first eligible id exists and every such record is marked `error`
with the failure's message; the failure toast carries `m`; the success
count stops at `pre.length` (the run aborts); and every eligible record
after the failing one is left in the batch completely unchanged. -/
theorem c2_failure_marks_first (api : String → ApiResult) (s : HomeState)
    (pre post : List Rec) (f : Rec) (m : String)
    (hnd : (s.uploadedImages.map (fun r => r.id)).Nodup)
    (helig : s.uploadedImages.filter eligible = pre ++ f :: post)
    (hpre : ∀ r ∈ pre, ∃ raw xml, api r.id = .ok raw xml)
    (hf : api f.id = .err m) :
    (∃ r ∈ (processImages api s).1.uploadedImages,
        r.id = (pre ++ f :: post).headI.id) ∧
    (∀ r ∈ (processImages api s).1.uploadedImages,
        r.id = (pre ++ f :: post).headI.id →
        r.status = .error ∧ r.errorMsg = some m) ∧
    (processImages api s).2.2 = some m ∧
    (processImages api s).2.1 = pre.length ∧
    (∀ r ∈ post, r ∈ (processImages api s).1.uploadedImages) := by
  have hnil : s.uploadedImages.filter eligible ≠ [] := by
    rw [helig]
    simp
  have hE : ¬ ((s.uploadedImages.filter eligible).isEmpty = true) := by
    rw [Bool.not_eq_true, List.isEmpty_eq_false]
    exact hnil
  have hout : processImages api s =
      finishRun (pre ++ f :: post).headI.id
        (markProcessing f.id (runOkFold api pre (beginRun s)),
          0 + pre.length, some m) := by
    simp only [processImages]
    rw [if_neg hE, helig, runLoop_fail api f m hf pre post (beginRun s) 0 hpre]
  have hndE : ((pre ++ f :: post).map (fun r => r.id)).Nodup := by
    rw [← helig]
    exact hnd.sublist
      ((List.filter_sublist s.uploadedImages).map (fun r => r.id))
  have hupsid :
      (processImages api s).1.uploadedImages.map (fun r => r.id) =
        s.uploadedImages.map (fun r => r.id) := by
    rw [hout, finishRun_some_ups,
      mapById_id _ (errF m) (fun r => rfl),
      markProcessing, mapById_id _ procF (fun r => rfl),
      runOkFold_ups_id]
    rfl
  have hheadmem : (pre ++ f :: post).headI ∈ pre ++ f :: post := by
    cases pre with
    | nil => simp [List.headI]
    | cons p t => simp [List.headI]
  refine ⟨?_, ?_, ?_, ?_, ?_⟩
  · have hheadmem2 : (pre ++ f :: post).headI ∈
        s.uploadedImages.filter eligible := by
      rw [helig]
      exact hheadmem
    have hidmem : (pre ++ f :: post).headI.id ∈
        (processImages api s).1.uploadedImages.map (fun r => r.id) := by
      rw [hupsid]
      exact List.mem_map_of_mem (fun r => r.id)
        (List.mem_of_mem_filter hheadmem2)
    obtain ⟨r, hr, hrid⟩ := List.mem_map.mp hidmem
    exact ⟨r, hr, hrid⟩
  · intro r hr hid
    rw [hout, finishRun_some_ups] at hr
    obtain ⟨q, hq, hqr⟩ := List.mem_map.mp hr
    by_cases hqe : q.id = (pre ++ f :: post).headI.id
    · rw [if_pos hqe] at hqr
      rw [← hqr]
      exact ⟨rfl, rfl⟩
    · rw [if_neg hqe] at hqr
      rw [← hqr] at hid
      exact absurd hid hqe
  · rw [hout, finishRun_count]
  · rw [hout, finishRun_count]
    simp
  · intro r hr
    have hmemelig : r ∈ pre ++ f :: post := by
      simp [hr]
    have hmems : r ∈ s.uploadedImages :=
      List.mem_of_mem_filter (helig ▸ hmemelig)
    have hmaps : (pre ++ f :: post).map (fun q => q.id) =
        pre.map (fun q => q.id) ++ f.id :: post.map (fun q => q.id) := by
      simp
    rw [hmaps] at hndE
    have hda := (List.nodup_append.mp hndE).2.2
    have hdf := (List.nodup_append.mp hndE).2.1
    have hridpost : r.id ∈ post.map (fun q => q.id) :=
      List.mem_map_of_mem (fun q => q.id) hr
    have hnotpre : r.id ∉ pre.map (fun q => q.id) := by
      intro hmem
      exact hda hmem (List.mem_cons_of_mem f.id hridpost)
    have hnotf : r.id ≠ f.id := by
      intro hEq
      have : f.id ∉ post.map (fun q => q.id) := by
        simp only [List.nodup_cons] at hdf
        exact hdf.1
      exact this (hEq ▸ hridpost)
    have hnothead : r.id ≠ (pre ++ f :: post).headI.id := by
      cases pre with
      | nil => simpa [List.headI] using hnotf
      | cons p t =>
        intro hEq
        exact hnotpre (hEq ▸ List.mem_map_of_mem (fun q => q.id)
          (List.mem_cons_self p t))
    rw [hout, finishRun_some_ups]
    refine mapById_mem _ _ _ _ ?_ hnothead
    simp only [markProcessing]
    refine mapById_mem _ _ _ _ ?_ hnotf
    exact runOkFold_mem api pre (beginRun s) r hmems hnotpre

/-- A four-record batch, ids `a`, `b`, `c`, `d`, all pending. -/
def demoState4 : HomeState :=
  { demoState3 with
      uploadedImages :=
        [demoRec "a", demoRec "b", demoRec "c", demoRec "d"] }

/-- C2, witness: four records `a b c d`, the call failing at `c`;
record `a` (the first eligible) is marked `error` with the message, the
count stops at 2, and record `d` is untouched. -/
theorem c2_failure_marks_first_witness :
    ((demoState4.uploadedImages.map (fun r => r.id)).Nodup) ∧
    (∀ r ∈ (processImages demoApi3 demoState4).1.uploadedImages,
        r.id = ([demoRec "a", demoRec "b"] ++
            demoRec "c" :: [demoRec "d"]).headI.id →
        r.status = .error ∧ r.errorMsg = some "boom") ∧
    (processImages demoApi3 demoState4).2.1 = 2 ∧
    (∀ r ∈ [demoRec "d"],
      r ∈ (processImages demoApi3 demoState4).1.uploadedImages) := by
  have h := c2_failure_marks_first demoApi3 demoState4
    [demoRec "a", demoRec "b"] [demoRec "d"] (demoRec "c") "boom"
    (by decide) (by decide)
    (by
      intro r hr
      fin_cases hr
      · exact ⟨"rawa", "xa", by decide⟩
      · exact ⟨"rawb", "xb", by decide⟩)
    (by decide)
  exact ⟨by decide, h.2.1, h.2.2.2.1, h.2.2.2.2⟩

/-! ## Decimal-representation lemmas for the id scheme of `addFiles` -/

theorem digitChar_isDigit (n : Nat) (h : n < 10) :
    (Nat.digitChar n).isDigit = true := by
  interval_cases n <;> decide

theorem toDigitsCore_digits (f : Nat) :
    ∀ (n : Nat) (ds : List Char), (∀ c ∈ ds, c.isDigit = true) →
      ∀ c ∈ Nat.toDigitsCore 10 f n ds, c.isDigit = true := by
  induction f with
  | zero => intro n ds hds c hc; exact hds c hc
  | succ f ih =>
    intro n ds hds c hc
    simp only [Nat.toDigitsCore] at hc
    have hd : (Nat.digitChar (n % 10)).isDigit = true :=
      digitChar_isDigit _ (Nat.mod_lt n (by norm_num))
    by_cases hz : n / 10 = 0
    · rw [if_pos hz] at hc
      rcases List.mem_cons.mp hc with rfl | hmem
      · exact hd
      · exact hds c hmem
    · rw [if_neg hz] at hc
      refine ih (n / 10) (Nat.digitChar (n % 10) :: ds) ?_ c hc
      intro d hdm
      rcases List.mem_cons.mp hdm with rfl | hmem
      · exact hd
      · exact hds d hmem

theorem repr_all_digits (n : Nat) :
    ∀ c ∈ (Nat.repr n).data, c.isDigit = true := by
  intro c hc
  have hdata : (Nat.repr n).data = Nat.toDigitsCore 10 (n + 1) n [] := rfl
  rw [hdata] at hc
  exact toDigitsCore_digits (n + 1) n []
    (fun d hd => absurd hd (List.not_mem_nil d)) c hc

/-- Numeric value of a decimal digit character. -/
def digitVal (c : Char) : Nat := c.toNat - 48

/-- Left fold reading a digit string as a decimal number on top of an
accumulator. -/
def accVal (a : Nat) (cs : List Char) : Nat :=
  cs.foldl (fun x c => 10 * x + digitVal c) a

theorem digitVal_digitChar (n : Nat) (h : n < 10) :
    digitVal (Nat.digitChar n) = n := by
  interval_cases n <;> decide

theorem toDigitsCore_val (f : Nat) :
    ∀ (n : Nat) (ds : List Char), n < 10 ^ f →
      accVal 0 (Nat.toDigitsCore 10 f n ds) = accVal n ds := by
  induction f with
  | zero =>
    intro n ds hn
    have hz : n = 0 := by simpa using hn
    subst hz
    rfl
  | succ f ih =>
    intro n ds hn
    simp only [Nat.toDigitsCore]
    have hmod : n % 10 < 10 := Nat.mod_lt n (by norm_num)
    by_cases hz : n / 10 = 0
    · rw [if_pos hz]
      have h10 : n < 10 := (Nat.div_eq_zero_iff (by norm_num)).mp hz
      show accVal 0 (Nat.digitChar (n % 10) :: ds) = accVal n ds
      have hstep : accVal 0 (Nat.digitChar (n % 10) :: ds) =
          accVal (digitVal (Nat.digitChar (n % 10))) ds := by
        simp [accVal]
      rw [hstep, digitVal_digitChar _ hmod, Nat.mod_eq_of_lt h10]
    · rw [if_neg hz]
      have hlt : n / 10 < 10 ^ f := by
        refine Nat.div_lt_of_lt_mul ?_
        rw [Nat.mul_comm]
        rw [pow_succ] at hn
        exact hn
      rw [ih (n / 10) (Nat.digitChar (n % 10) :: ds) hlt]
      have hstep : accVal (n / 10) (Nat.digitChar (n % 10) :: ds) =
          accVal (10 * (n / 10) + (n % 10)) ds := by
        simp [accVal, digitVal_digitChar _ hmod]
      rw [hstep, Nat.div_add_mod]

theorem accVal_repr (n : Nat) : accVal 0 (Nat.repr n).data = n := by
  have hdata : (Nat.repr n).data = Nat.toDigitsCore 10 (n + 1) n [] := rfl
  have hbound : n < 10 ^ (n + 1) :=
    Nat.lt_of_lt_of_le (Nat.lt_pow_self (by norm_num) n)
      (Nat.pow_le_pow_right (by norm_num) (Nat.le_succ n))
  rw [hdata, toDigitsCore_val (n + 1) n [] hbound]
  rfl

theorem repr_data_injective {m n : Nat}
    (h : (Nat.repr m).data = (Nat.repr n).data) : m = n := by
  have hv := congrArg (accVal 0) h
  rwa [accVal_repr, accVal_repr] at hv

theorem digits_dash_split :
    ∀ (xs ys as bs : List Char), (∀ c ∈ xs, c.isDigit = true) →
      (∀ c ∈ ys, c.isDigit = true) →
      xs ++ '-' :: as = ys ++ '-' :: bs → xs = ys ∧ as = bs := by
  intro xs
  induction xs with
  | nil =>
    intro ys as bs _ hys h
    cases ys with
    | nil => simpa using h
    | cons y yt =>
      simp only [List.nil_append, List.cons_append, List.cons.injEq] at h
      have hdig : y.isDigit = true := hys y (List.mem_cons_self y yt)
      rw [← h.1] at hdig
      exact absurd hdig (by decide)
  | cons x xt ih =>
    intro ys as bs hxs hys h
    cases ys with
    | nil =>
      simp only [List.cons_append, List.nil_append, List.cons.injEq] at h
      have hdig : x.isDigit = true := hxs x (List.mem_cons_self x xt)
      rw [h.1] at hdig
      exact absurd hdig (by decide)
    | cons y yt =>
      simp only [List.cons_append, List.cons.injEq] at h
      obtain ⟨hxy, hrest⟩ := h
      obtain ⟨h1, h2⟩ := ih yt as bs
        (fun c hc => hxs c (List.mem_cons_of_mem x hc))
        (fun c hc => hys c (List.mem_cons_of_mem y hc)) hrest
      exact ⟨by rw [hxy, h1], h2⟩

theorem mkId_inj (now i j : Nat) (ni nj : String)
    (h : Nat.repr now ++ "-" ++ Nat.repr i ++ "-" ++ ni =
      Nat.repr now ++ "-" ++ Nat.repr j ++ "-" ++ nj) : i = j := by
  have hdata := congrArg String.data h
  simp only [String.data_append, List.append_assoc,
    List.singleton_append] at hdata
  have hcanc0 := List.append_cancel_left hdata
  have hcanc := (List.cons.inj hcanc0).2
  have hsplit := digits_dash_split (Nat.repr i).data (Nat.repr j).data
    ni.data nj.data (repr_all_digits i) (repr_all_digits j) hcanc
  exact repr_data_injective hsplit.1

/-- C7, amended. One `addFiles` call appends exactly its records at the
end, in order, each `pending` with zero progress and empty text fields,
and the ids created within that call are pairwise distinct. (Cross-call
uniqueness does not hold; see the counterexample.) -/
theorem c7_addFiles (now : Nat) (names : List String) (s : HomeState) :
    (handleFilesSelected now names s).uploadedImages =
        s.uploadedImages ++ mkRecs now names ∧
      (mkRecs now names).length = names.length ∧
      (mkRecs now names).map (fun r => r.fileName) = names ∧
      (∀ r ∈ mkRecs now names, r.status = .pending ∧ r.progress = 0 ∧
        r.rawText = "" ∧ r.parsedData = none ∧ r.errorMsg = none) ∧
      ((mkRecs now names).map (fun r => r.id)).Nodup := by
  refine ⟨rfl, by simp [mkRecs], ?_, ?_, ?_⟩
  · have hcomp : (mkRecs now names).map (fun r => r.fileName) =
        names.enum.map Prod.snd := by
      simp only [mkRecs, List.map_map]
      apply List.map_congr_left
      intro p _
      rfl
    rw [hcomp, List.enum_map_snd]
  · intro r hr
    simp only [mkRecs, List.mem_map] at hr
    obtain ⟨p, _, rfl⟩ := hr
    exact ⟨rfl, rfl, rfl, rfl, rfl⟩
  · have hmap : (mkRecs now names).map (fun r => r.id) =
        names.enum.map
          (fun p => Nat.repr now ++ "-" ++ Nat.repr p.1 ++ "-" ++ p.2) := by
      simp [mkRecs, List.map_map]
    rw [hmap]
    have hfst : (names.enum.map Prod.fst).Nodup :=
      List.nodup_enum_map_fst names
    have henum : names.enum.Nodup := List.Nodup.of_map Prod.fst hfst
    refine List.Nodup.map_on ?_ henum
    intro p hp q hq hpq
    have hfst_eq : p.1 = q.1 := mkId_inj now p.1 q.1 p.2 q.2 hpq
    exact List.inj_on_of_nodup_map hfst hp hq hfst_eq

/-- C7, amended, witness: a call with two equal file names still makes
distinct ids, appended in order. -/
theorem c7_addFiles_witness :
    (handleFilesSelected 5 ["a", "a"] demoState1).uploadedImages =
        demoState1.uploadedImages ++ mkRecs 5 ["a", "a"] ∧
      ((mkRecs 5 ["a", "a"]).map (fun r => r.id)).Nodup :=
  ⟨(c7_addFiles 5 ["a", "a"] demoState1).1,
    (c7_addFiles 5 ["a", "a"] demoState1).2.2.2.2⟩

/-! ## Sentinel-scrub lemmas -/

theorem mTok_eq : mTok = ['M', 'I', 'S', 'S', 'I', 'N', 'G'] := rfl

theorem uTok_eq :
    uTok = ['U', 'N', 'R', 'E', 'A', 'D', 'A', 'B', 'L', 'E'] := rfl

theorem mTok_length : mTok.length = 7 := rfl

theorem uTok_length : uTok.length = 10 := rfl

theorem scrubGo_congr : ∀ (f1 f2 : Nat) (l : List Char),
    l.length ≤ f1 → l.length ≤ f2 → scrubGo f1 l = scrubGo f2 l := by
  intro f1
  induction f1 with
  | zero =>
    intro f2 l h1 _
    have hnil : l = [] := List.eq_nil_of_length_eq_zero (Nat.le_zero.mp h1)
    subst hnil
    cases f2 <;> rfl
  | succ f ih =>
    intro f2 l h1 h2
    cases l with
    | nil => cases f2 <;> rfl
    | cons c cs =>
      cases f2 with
      | zero => simp at h2
      | succ f2p =>
        simp only [List.length_cons] at h1 h2
        simp only [scrubGo]
        by_cases hm : (c :: cs).take 7 = mTok
        · rw [if_pos hm, if_pos hm]
          exact ih f2p _
            (by simp only [List.length_drop, List.length_cons]; omega)
            (by simp only [List.length_drop, List.length_cons]; omega)
        · rw [if_neg hm, if_neg hm]
          by_cases hu : (c :: cs).take 10 = uTok
          · rw [if_pos hu, if_pos hu]
            exact ih f2p _
              (by simp only [List.length_drop, List.length_cons]; omega)
              (by simp only [List.length_drop, List.length_cons]; omega)
          · rw [if_neg hu, if_neg hu]
            exact congrArg (List.cons c)
              (ih f2p cs (by omega) (by omega))

theorem scrubL_cons (c : Char) (cs : List Char) :
    scrubL (c :: cs) =
      if (c :: cs).take 7 = mTok then scrubL ((c :: cs).drop 7)
      else if (c :: cs).take 10 = uTok then scrubL ((c :: cs).drop 10)
      else c :: scrubL cs := by
  unfold scrubL
  simp only [List.length_cons, scrubGo]
  by_cases hm : (c :: cs).take 7 = mTok
  · rw [if_pos hm, if_pos hm]
    exact scrubGo_congr cs.length ((c :: cs).drop 7).length _
      (by simp only [List.length_drop, List.length_cons]; omega)
      (Nat.le_refl _)
  · rw [if_neg hm, if_neg hm]
    by_cases hu : (c :: cs).take 10 = uTok
    · rw [if_pos hu, if_pos hu]
      exact scrubGo_congr cs.length ((c :: cs).drop 10).length _
        (by simp only [List.length_drop, List.length_cons]; omega)
        (Nat.le_refl _)
    · rw [if_neg hu, if_neg hu]

theorem scrubGo_length_le : ∀ (fuel : Nat) (l : List Char),
    (scrubGo fuel l).length ≤ l.length := by
  intro fuel
  induction fuel with
  | zero => intro l; cases l <;> simp [scrubGo]
  | succ f ih =>
    intro l
    cases l with
    | nil => simp [scrubGo]
    | cons c cs =>
      simp only [scrubGo]
      by_cases hm : (c :: cs).take 7 = mTok
      · rw [if_pos hm]
        refine (ih _).trans ?_
        simp only [List.length_drop, List.length_cons]
        omega
      · rw [if_neg hm]
        by_cases hu : (c :: cs).take 10 = uTok
        · rw [if_pos hu]
          refine (ih _).trans ?_
          simp only [List.length_drop, List.length_cons]
          omega
        · rw [if_neg hu]
          simp only [List.length_cons]
          exact Nat.succ_le_succ (ih cs)

theorem scrubL_length_le (l : List Char) : (scrubL l).length ≤ l.length :=
  scrubGo_length_le l.length l

theorem scrubL_head_m (l : List Char) (h : l.take 7 = mTok) :
    scrubL l ≠ l := by
  have hlen : 7 ≤ l.length := by
    have hl := congrArg List.length h
    rw [List.length_take, mTok_length] at hl
    omega
  cases l with
  | nil => simp at hlen
  | cons c cs =>
    rw [scrubL_cons, if_pos h]
    intro hEq
    have hlc := congrArg List.length hEq
    have hle := scrubL_length_le ((c :: cs).drop 7)
    simp only [List.length_drop, List.length_cons] at hle hlc hlen
    omega

theorem scrubL_head_u (l : List Char) (h : l.take 10 = uTok) :
    scrubL l ≠ l := by
  have hlen : 10 ≤ l.length := by
    have hl := congrArg List.length h
    rw [List.length_take, uTok_length] at hl
    omega
  have h1u : l.take 1 = ['U'] := by
    have ht : (l.take 10).take 1 = l.take 1 := by
      rw [List.take_take]
      norm_num
    rw [h, uTok_eq] at ht
    simpa using ht.symm
  have h7 : ¬ (l.take 7 = mTok) := by
    intro h7
    have ht : (l.take 7).take 1 = l.take 1 := by
      rw [List.take_take]
      norm_num
    rw [h7, mTok_eq, h1u] at ht
    simp at ht
  cases l with
  | nil => simp at hlen
  | cons c cs =>
    rw [scrubL_cons, if_neg h7, if_pos h]
    intro hEq
    have hlc := congrArg List.length hEq
    have hle := scrubL_length_le ((c :: cs).drop 10)
    simp only [List.length_drop, List.length_cons] at hle hlc hlen
    omega

theorem scrubL_clean_cons (c : Char) (cs : List Char)
    (h : scrubL (c :: cs) = c :: cs) :
    scrubL cs = cs ∧ ¬ ((c :: cs).take 7 = mTok) ∧
      ¬ ((c :: cs).take 10 = uTok) := by
  by_cases h7 : (c :: cs).take 7 = mTok
  · exact absurd h (scrubL_head_m _ h7)
  by_cases h10 : (c :: cs).take 10 = uTok
  · exact absurd h (scrubL_head_u _ h10)
  rw [scrubL_cons, if_neg h7, if_neg h10] at h
  exact ⟨(List.cons.inj h).2, h7, h10⟩

theorem take_append_split (a rest pat : List Char)
    (hlen : a.length ≤ pat.length)
    (h : (a ++ rest).take pat.length = pat) :
    a = pat.take a.length ∧
      rest.take (pat.length - a.length) = pat.drop a.length := by
  rw [List.take_append_eq_append_take, List.take_of_length_le hlen] at h
  have h2 : a ++ rest.take (pat.length - a.length) =
      pat.take a.length ++ pat.drop a.length :=
    h.trans (List.take_append_drop a.length pat).symm
  refine List.append_inj h2 ?_
  simp only [List.length_take]
  omega

theorem no_m_match_m_insert (a b : List Char) (ha : scrubL a = a)
    (hne : a ≠ []) : ¬ ((a ++ (mTok ++ b)).take 7 = mTok) := by
  intro h
  by_cases hlen : 7 ≤ a.length
  · have h7 : a.take 7 = mTok := by
      rw [List.take_append_eq_append_take] at h
      have h0 : 7 - a.length = 0 := by omega
      rw [h0, List.take_zero, List.append_nil] at h
      exact h
    exact scrubL_head_m a h7 ha
  · push_neg at hlen
    have hk1 : 1 ≤ a.length := List.length_pos.mpr hne
    obtain ⟨ha1, ha2⟩ := take_append_split a (mTok ++ b) mTok
      (by rw [mTok_length]; omega) (by rw [mTok_length]; exact h)
    rw [mTok_length] at ha2
    generalize hk : a.length = k at hlen hk1 ha2
    interval_cases k <;>
      simp [mTok_eq, List.take_append_eq_append_take] at ha2

theorem no_u_match_m_insert (a b : List Char) (ha : scrubL a = a)
    (hne : a ≠ []) : ¬ ((a ++ (mTok ++ b)).take 10 = uTok) := by
  intro h
  by_cases hlen : 10 ≤ a.length
  · have h10 : a.take 10 = uTok := by
      rw [List.take_append_eq_append_take] at h
      have h0 : 10 - a.length = 0 := by omega
      rw [h0, List.take_zero, List.append_nil] at h
      exact h
    exact scrubL_head_u a h10 ha
  · push_neg at hlen
    have hk1 : 1 ≤ a.length := List.length_pos.mpr hne
    obtain ⟨ha1, ha2⟩ := take_append_split a (mTok ++ b) uTok
      (by rw [uTok_length]; omega) (by rw [uTok_length]; exact h)
    rw [uTok_length] at ha2
    generalize hk : a.length = k at hlen hk1 ha2
    interval_cases k <;>
      simp [mTok_eq, uTok_eq, List.take_append_eq_append_take] at ha2

theorem no_m_match_u_insert (a b : List Char) (ha : scrubL a = a)
    (hne : a ≠ []) : ¬ ((a ++ (uTok ++ b)).take 7 = mTok) := by
  intro h
  by_cases hlen : 7 ≤ a.length
  · have h7 : a.take 7 = mTok := by
      rw [List.take_append_eq_append_take] at h
      have h0 : 7 - a.length = 0 := by omega
      rw [h0, List.take_zero, List.append_nil] at h
      exact h
    exact scrubL_head_m a h7 ha
  · push_neg at hlen
    have hk1 : 1 ≤ a.length := List.length_pos.mpr hne
    obtain ⟨ha1, ha2⟩ := take_append_split a (uTok ++ b) mTok
      (by rw [mTok_length]; omega) (by rw [mTok_length]; exact h)
    rw [mTok_length] at ha2
    generalize hk : a.length = k at hlen hk1 ha2
    interval_cases k <;>
      simp [mTok_eq, uTok_eq, List.take_append_eq_append_take] at ha2

theorem no_u_match_u_insert (a b : List Char) (ha : scrubL a = a)
    (hne : a ≠ []) : ¬ ((a ++ (uTok ++ b)).take 10 = uTok) := by
  intro h
  by_cases hlen : 10 ≤ a.length
  · have h10 : a.take 10 = uTok := by
      rw [List.take_append_eq_append_take] at h
      have h0 : 10 - a.length = 0 := by omega
      rw [h0, List.take_zero, List.append_nil] at h
      exact h
    exact scrubL_head_u a h10 ha
  · push_neg at hlen
    have hk1 : 1 ≤ a.length := List.length_pos.mpr hne
    obtain ⟨ha1, ha2⟩ := take_append_split a (uTok ++ b) uTok
      (by rw [uTok_length]; omega) (by rw [uTok_length]; exact h)
    rw [uTok_length] at ha2
    generalize hk : a.length = k at hlen hk1 ha2
    interval_cases k <;>
      simp [uTok_eq, List.take_append_eq_append_take] at ha2

theorem scrubL_insert_m : ∀ (a b : List Char), scrubL a = a →
    scrubL (a ++ (mTok ++ b)) = a ++ scrubL b := by
  intro a
  induction a with
  | nil =>
    intro b _
    simp only [List.nil_append]
    rw [mTok_eq]
    simp only [List.cons_append]
    rw [scrubL_cons]
    norm_num [mTok_eq]
  | cons c a5 ih =>
    intro b hclean
    have hparts := scrubL_clean_cons c a5 hclean
    have hne : (c :: a5) ≠ [] := by simp
    have hm := no_m_match_m_insert (c :: a5) b hclean hne
    have hu := no_u_match_m_insert (c :: a5) b hclean hne
    rw [List.cons_append] at hm hu ⊢
    rw [scrubL_cons, if_neg hm, if_neg hu, ih b hparts.1]
    exact (List.cons_append c a5 (scrubL b)).symm

theorem scrubL_insert_u : ∀ (a b : List Char), scrubL a = a →
    scrubL (a ++ (uTok ++ b)) = a ++ scrubL b := by
  intro a
  induction a with
  | nil =>
    intro b _
    simp only [List.nil_append]
    rw [uTok_eq]
    simp only [List.cons_append]
    rw [scrubL_cons, if_neg (by simp [mTok_eq]), if_pos (by simp [uTok_eq])]
    simp
  | cons c a5 ih =>
    intro b hclean
    have hparts := scrubL_clean_cons c a5 hclean
    have hne : (c :: a5) ≠ [] := by simp
    have hm := no_m_match_u_insert (c :: a5) b hclean hne
    have hu := no_u_match_u_insert (c :: a5) b hclean hne
    rw [List.cons_append] at hm hu ⊢
    rw [scrubL_cons, if_neg hm, if_neg hu, ih b hparts.1]
    exact (List.cons_append c a5 (scrubL b)).symm

/-- C8, amended. Occurrences of the sentinel tokens are removed by the
single left-to-right scan — inserting a token between scrub-invariant
pieces deletes exactly that token — and the extracted field is the
scrubbed text trimmed; a dosage field whose text carries a
`Dosage:` marker keeps it: only the sentinel substring is removed. -/
theorem c8_scrub_then_trim :
    (∀ a b : List Char, scrubL a = a →
        scrubL (a ++ (mTok ++ b)) = a ++ scrubL b) ∧
      (∀ a b : List Char, scrubL a = a →
        scrubL (a ++ (uTok ++ b)) = a ++ scrubL b) ∧
      getTextSel demoDoc8 ⟨["Medicine", "Prescription"], "Dosage"⟩ =
        "Dosage: 500mg" ∧
      trimS (scrubS "500mg MISSING") = "500mg" :=
  ⟨scrubL_insert_m, scrubL_insert_u, by decide, by decide⟩

/-- C8, amended, witness: a concrete token insertion between clean
pieces. -/
theorem c8_scrub_then_trim_witness :
    (scrubL "ab".data = "ab".data) ∧
      scrubL ("ab".data ++ (mTok ++ "cd".data)) =
        "ab".data ++ scrubL "cd".data :=
  ⟨by decide, c8_scrub_then_trim.1 "ab".data "cd".data (by decide)⟩

theorem occursL_false_replFirst (pat : List Char) :
    ∀ l : List Char, occursL pat l = false → replFirstL pat l = l := by
  intro l
  induction l with
  | nil => intro _; rfl
  | cons c cs ih =>
    intro h
    simp only [occursL, Bool.or_eq_false_iff, decide_eq_false_iff_not] at h
    simp only [replFirstL]
    rw [if_neg h.1, ih h.2]

theorem replFirstL_head (pat r : List Char) :
    replFirstL pat (pat ++ r) = r := by
  cases hpr : pat ++ r with
  | nil =>
    obtain ⟨hp, hr⟩ := List.append_eq_nil.mp hpr
    subst hp
    subst hr
    rfl
  | cons c cs =>
    simp only [replFirstL]
    have htake : (c :: cs).take pat.length = pat := by
      rw [← hpr]
      exact List.take_left pat r
    rw [if_pos htake, ← hpr]
    exact List.drop_left pat r

/-- C9, amended. The Order ID transformation removes the first
occurrence of `Order ID:` wherever it appears and trims: when the
pattern does not occur the field is only trimmed (hence unchanged for an
already-trimmed field), and when the field starts with the pattern the
remainder is kept trimmed. -/
theorem c9_order_id :
    (∀ s : String, occursL "Order ID:".data s.data = false →
        oidTransform s = trimS s) ∧
      ∀ r : String, oidTransform ("Order ID:" ++ r) = trimS r := by
  constructor
  · intro s h
    unfold oidTransform replFirstS
    rw [occursL_false_replFirst _ _ h]
  · intro r
    unfold oidTransform replFirstS
    have hd : (("Order ID:" : String) ++ r).data =
        "Order ID:".data ++ r.data := String.data_append _ _
    rw [hd, replFirstL_head]

/-- C9, amended, witness: a pattern-free field is only trimmed; a field
starting with the pattern keeps the trimmed remainder. -/
theorem c9_order_id_witness :
    (occursL "Order ID:".data "abc".data = false ∧
        oidTransform "abc" = trimS "abc") ∧
      oidTransform ("Order ID:" ++ " 42") = trimS " 42" :=
  ⟨⟨by decide, c9_order_id.1 "abc" (by decide)⟩, c9_order_id.2 " 42"⟩

end PharmaScan
